import Mathlib

/-!
Shallow embedding of the beat-synced reel builder of `edited/editing.py`
(repository InstaAutReel).  Durations and offsets are modelled as exact
rationals; the process-wide random source is modelled by explicit streams:
`us i` is the unit draw of `random.uniform` at loop iteration `i` (the drawn
start offset is `us i * max_start`), and `cs i` is the index drawn by
`random.choice` from the twelve-element transition list at iteration `i`.
-/

namespace InstaReel

/-- A planned segment, as produced by one iteration of the planning loop of
`beat_synced_reel_moviepy` (both the beat-driven loop and the no-beat loop):
the cycled clip index `clip_idx % len(clips)`, the duration of that source
clip, the requested duration `min(2.0, total - current_time)`, the chosen
start offset, the actual duration `min(duration, clip.duration - start)` and
the applied transition identifier. -/
structure Segment where
  clipIdx : Nat
  clipDur : ℚ
  req : ℚ
  start : ℚ
  dur : ℚ
  transition : String
deriving DecidableEq, Inhabited

/-- The twelve transition identifiers of `transition_styles`
(editing.py lines 294-307). -/
def transition_styles : List String :=
  ["fade", "quick_fade", "zoom_in", "zoom_out", "crossfade", "spin_right",
   "spin_left", "scale_bounce", "smooth_fade", "dramatic_fade", "zoom_blur",
   "gentle_zoom"]

/-- The requested duration of one loop iteration:
`duration = min(2.0, total_audio_duration - current_time)`
(editing.py lines 226 and 274-275). -/
def stepReq (total current : ℚ) : ℚ := min 2 (total - current)

/-- The duration of the cycled clip `clips[clip_idx % len(clips)]`
(editing.py lines 229 and 278). -/
def stepClipDur (clips : List ℚ) (idx : Nat) : ℚ :=
  clips.getD (idx % clips.length) 0

/-- The start-offset bound `max_start = max(0, clip.duration - duration - 0.5)`
(editing.py lines 232 and 281). -/
def stepMaxStart (clipDur req : ℚ) : ℚ := max 0 (clipDur - req - 1/2)

/-- The chosen start offset: drawn uniformly from `[0, max_start]` when
`max_start > 0` (modelled as `u * max_start` with `u` the unit draw of
`random.uniform`), else `0` (editing.py lines 233-236 and 282-285). -/
def stepStart (u maxStart : ℚ) : ℚ := if 0 < maxStart then u * maxStart else 0

/-- The actual duration
`actual_duration = min(duration, clip.duration - random_start)`
(editing.py lines 239 and 288). -/
def stepDur (req clipDur start : ℚ) : ℚ := min req (clipDur - start)

/-- One iteration of the planning loop (editing.py lines 226-248 and
273-291), assigning the transition identifier `t` to the segment. -/
def planStep (clips : List ℚ) (total : ℚ) (u : ℚ) (t : String)
    (current : ℚ) (idx : Nat) : Segment :=
  let req := stepReq total current
  let clipDur := stepClipDur clips idx
  let start := stepStart u (stepMaxStart clipDur req)
  { clipIdx := idx % clips.length, clipDur := clipDur, req := req,
    start := start, dur := stepDur req clipDur start, transition := t }

/-- The planning loop `while current_time < total_audio_duration` of
`beat_synced_reel_moviepy`, with explicit fuel (the source is a `while`
loop; `none` means the fuel ran out before the loop finished).  `trans idx`
is the transition assigned at iteration `idx`.  The source's beat-driven
loop also computes a `target_beat_idx` from the beat grid, which it never
uses; it is omitted here because it has no effect. -/
def planLoop (clips : List ℚ) (total : ℚ) (us : Nat → ℚ) (trans : Nat → String) :
    Nat → ℚ → Nat → Option (List Segment)
  | 0, _, _ => none
  | fuel + 1, current, idx =>
    if current < total then
      let seg := planStep clips total (us idx) (trans idx) current idx
      (planLoop clips total us trans fuel (current + seg.dur) (idx + 1)).map (seg :: ·)
    else
      some []

/-- The beat-driven branch (editing.py lines 251-340): the target total
duration is the beat span `beat_times[-1] - beat_times[0]`, and the
transition of each segment is `transition_styles[cs idx]` where `cs` is the
stream of indices drawn by `random.choice`. -/
def planBeat (clips : List ℚ) (beatTimes : List ℚ) (us : Nat → ℚ)
    (cs : Nat → Fin 12) (fuel : Nat) : Option (List Segment) :=
  let total := beatTimes.getLast?.getD 0 - beatTimes.headI
  planLoop clips total us (fun i => transition_styles.getD (cs i) "fade") fuel 0 0

/-- The fewer-than-2-beats branch (editing.py lines 213-249): the target
total duration is the audio duration when determinable, else the fixed
default `10.0`; every segment gets the fixed fade transition
(`fadein 0.2 / fadeout 0.2`, line 245) — no random choice occurs. -/
def planNoBeat (clips : List ℚ) (audioDur : Option ℚ) (us : Nat → ℚ)
    (fuel : Nat) : Option (List Segment) :=
  let total := audioDur.getD 10
  planLoop clips total us (fun _ => "fade") fuel 0 0

/-- Greedy 2-second chunking of a total duration: the sequence of values
taken by `min(2.0, total - current_time)` along the planning loop. -/
def chunkDurs (total : ℚ) : Nat → ℚ → List ℚ
  | 0, _ => []
  | fuel + 1, current =>
    if current < total then
      min 2 (total - current) :: chunkDurs total fuel (current + min 2 (total - current))
    else
      []

/-- Truncation toward zero, the semantics of Python `int()` on a float. -/
def pyInt (q : ℚ) : ℤ := if 0 ≤ q then ⌊q⌋ else ⌈q⌉

/-- The `beats_per_clip` computation of editing.py lines 253-256:
`avg_beat_interval = (beat_times[-1] - beat_times[0]) / len(beat_times)`,
`beats_per_second = 1.0 / avg_beat_interval`,
`beats_per_clip = max(1, int(beats_per_second * 2.0))`. -/
def beats_per_clip (beatTimes : List ℚ) : ℤ :=
  let avg_beat_interval :=
    (beatTimes.getLast?.getD 0 - beatTimes.headI) / (beatTimes.length : ℚ)
  let beats_per_second := 1 / avg_beat_interval
  max 1 (pyInt (beats_per_second * 2))

/-- Modelled from the spec: the spec's formula
`beats_per_clip = max(1, round(beats_per_second * 2.0))`, with `round`
(round to nearest) in place of the code's `int` truncation; kept separate so
the two can be compared. -/
def beats_per_clip_spec (beatTimes : List ℚ) : ℤ :=
  let avg_beat_interval :=
    (beatTimes.getLast?.getD 0 - beatTimes.headI) / (beatTimes.length : ℚ)
  let beats_per_second := 1 / avg_beat_interval
  max 1 (round (beats_per_second * 2))

/-- Result dimensions of the normalization of one clip (editing.py lines
196-203): if `w/h > 1080/1920` the clip is resized to height 1920 and its
width center-cropped to 1080; otherwise it is resized to width 1080 and,
when the resulting height `h * 1080/w` exceeds 1920, the height is
center-cropped to 1920. -/
def normalizeDims (w h : ℚ) : ℚ × ℚ :=
  if w / h > 1080 / 1920 then
    (1080, 1920)
  else
    let h2 := h * (1080 / w)
    if h2 > 1920 then (1080, 1920) else (1080, h2)

/-- The recognized video extensions of editing.py lines 63 and 184. -/
def videoExts : List String := [".mp4", ".mov", ".avi"]

/-- Whether a filename has a recognized video extension
(`f.lower().endswith((".mp4", ".mov", ".avi"))`), modelled over the
filename's character list. -/
def isVideoFile (f : String) : Bool :=
  videoExts.any (fun e => e.data.isSuffixOf (f.data.map Char.toLower))

/-- Lexicographic code-point comparison of character lists (the order
Python `sorted` uses on strings). -/
def charListLe : List Char → List Char → Bool
  | [], _ => true
  | _ :: _, [] => false
  | a :: as, b :: bs => if a = b then charListLe as bs else decide (a < b)

/-- Insertion into a lexicographically sorted list of filenames. -/
def insertFile (x : String) : List String → List String
  | [] => [x]
  | y :: ys =>
    if charListLe x.data y.data then x :: y :: ys else y :: insertFile x ys

/-- Insertion sort by filename, modelling Python `sorted`. -/
def sortFiles : List String → List String
  | [] => []
  | x :: xs => insertFile x (sortFiles xs)

/-- The sorted list of recognized video files of the clip folder
(editing.py lines 61-64 and 182-185). -/
def videoFiles (files : List String) : List String :=
  sortFiles (files.filter isVideoFile)

/-- The `get_audio_duration` function (editing.py lines 40-53): the ffprobe
duration capped at 60 seconds, or the 30-second default when the duration
cannot be detected.  `probe` is the ffprobe result (`none` = undetectable). -/
def get_audio_duration (probe : Option ℚ) : ℚ :=
  match probe with
  | some duration => min duration 60
  | none => 30

/-- Environment of one render request: the clip-folder listing, the ffprobe
result for the audio file, the module-level capability flags, and oracles
for the failure behavior of the external libraries and ffmpeg invocations. -/
structure Env where
  files : List String
  audioProbe : Option ℚ
  moviepyAvailable : Bool
  librosaAvailable : Bool
  /-- whether `librosa.load` / `beat_track` raises (editing.py lines 177-179). -/
  analysisRaises : Bool
  /-- whether the MoviePy pipeline raises after the empty-folder check. -/
  moviepyRenderRaises : Bool
  /-- whether the ffmpeg concat invocation returns 0 and creates the file. -/
  concatCmdOk : Bool
  /-- whether the ffmpeg placeholder invocation succeeds. -/
  placeholderCmdOk : Bool

/-- Observable events of a render request: entry into each of the three
strategies (the MoviePy pipeline, `simple_video_concat`,
`create_placeholder_video`). -/
inductive Event
  | moviepyTier
  | concatTier
  | placeholderTier
deriving DecidableEq

/-- Outcome of one Python function call in the model: the events it caused,
whether it raised an exception to its caller, the duration of the output
file it produced (if any), and — for `simple_video_concat` — the
`duration_per_video` value it wrote into the ffmpeg concat list. -/
structure CallResult where
  events : List Event
  raised : Bool
  output : Option ℚ
  perVideo : Option ℚ
deriving DecidableEq

/-- The `create_placeholder_video` function (editing.py lines 127-148):
runs one ffmpeg invocation producing a solid-color video of duration
`get_audio_duration` (the `-t` cap); on ffmpeg failure it re-raises. -/
def create_placeholder_video (env : Env) : CallResult :=
  if env.placeholderCmdOk then
    ⟨[.placeholderTier], false, some (get_audio_duration env.audioProbe), none⟩
  else
    ⟨[.placeholderTier], true, none, none⟩

/-- The `simple_video_concat` function (editing.py lines 55-125): raises
`FileNotFoundError` when the folder holds no recognized video file; else
writes `duration_per_video = audio_duration / len(video_files)` per entry of
the concat list and runs ffmpeg with output capped at `-t audio_duration`.
On ffmpeg failure it calls `create_placeholder_video` inside the `try`
block; if that raises, the `except` handler calls it once more, and only
that second failure propagates to the caller. -/
def simple_video_concat (env : Env) : CallResult :=
  let files := videoFiles env.files
  if files.isEmpty then
    ⟨[.concatTier], true, none, none⟩
  else
    let audio_duration := get_audio_duration env.audioProbe
    let duration_per_video := audio_duration / (files.length : ℚ)
    if env.concatCmdOk then
      ⟨[.concatTier], false, some audio_duration, some duration_per_video⟩
    else
      let p := create_placeholder_video env
      if !p.raised then
        ⟨.concatTier :: p.events, false, p.output, some duration_per_video⟩
      else
        let p2 := create_placeholder_video env
        ⟨.concatTier :: (p.events ++ p2.events), p2.raised, p2.output,
          some duration_per_video⟩

/-- The MoviePy pipeline `beat_synced_reel_moviepy` as seen by the fallback
controller (editing.py lines 172-352): it raises when audio analysis
raises; otherwise, when the folder holds no recognized video file, it
prints and returns `None` without raising (line 189); otherwise it raises
exactly when the rest of the pipeline raises. -/
def beat_synced_reel_moviepy_call (env : Env) : CallResult :=
  if env.analysisRaises then
    ⟨[.moviepyTier], true, none, none⟩
  else if (videoFiles env.files).isEmpty then
    ⟨[.moviepyTier], false, none, none⟩
  else if env.moviepyRenderRaises then
    ⟨[.moviepyTier], true, none, none⟩
  else
    ⟨[.moviepyTier], false, some (get_audio_duration env.audioProbe), none⟩

/-- The fallback controller `beat_synced_reel` (editing.py lines 150-170):
when MoviePy and librosa are available it tries the MoviePy pipeline and
returns its result unless it raises; then it tries `simple_video_concat`,
and if that raises it calls `create_placeholder_video`, whose own failure
is the only one that propagates to the caller.  Returns the events of the
whole request and whether an exception escaped to the caller. -/
def beat_synced_reel (env : Env) : List Event × Bool :=
  if env.moviepyAvailable && env.librosaAvailable then
    let m := beat_synced_reel_moviepy_call env
    if !m.raised then
      (m.events, false)
    else
      let s := simple_video_concat env
      if !s.raised then
        (m.events ++ s.events, false)
      else
        let p := create_placeholder_video env
        (m.events ++ s.events ++ p.events, p.raised)
  else
    let s := simple_video_concat env
    if !s.raised then
      (s.events, false)
    else
      let p := create_placeholder_video env
      (s.events ++ p.events, p.raised)

/-- Constant-zero unit-draw stream (every `random.uniform` draw is the left
endpoint). -/
def usZero : Nat → ℚ := fun _ => 0

/-- Constant-zero transition-choice stream (every `random.choice` draw is
the first list entry). -/
def csZero : Nat → Fin 12 := fun _ => 0

/-- The plan produced for one 3-second clip, target total duration 5 and
zero random draws: two full 2-second segments and one final 1-second
segment. -/
def segsW1 : List Segment :=
  [⟨0, 3, 2, 0, 2, "fade"⟩, ⟨0, 3, 2, 0, 2, "fade"⟩, ⟨0, 3, 1, 0, 1, "fade"⟩]

/-- The plan of the no-beat branch for one 5-second clip, audio duration 4
and zero random draws: two full 2-second segments, both with the fixed fade
transition. -/
def segsW2 : List Segment :=
  [⟨0, 5, 2, 0, 2, "fade"⟩, ⟨0, 5, 2, 0, 2, "fade"⟩]

/-- Render environment: empty clip folder, MoviePy and librosa available,
audio analysis succeeds, ffmpeg works. -/
def envEmptyA : Env := ⟨[], some 12, true, true, false, false, true, true⟩

/-- Render environment: empty clip folder, MoviePy unavailable, ffmpeg
works. -/
def envEmptyB : Env := ⟨[], some 12, false, true, false, false, true, true⟩

/-- Render environment: one clip, libraries available, the MoviePy pipeline
raises after its clip check, ffmpeg works. -/
def envPrimaryFails : Env := ⟨["a.mp4"], some 12, true, true, false, true, true, true⟩

/-- Render environment: one clip, MoviePy unavailable, a readable 90-second
audio file, ffmpeg works. -/
def envLongAudio : Env := ⟨["a.mp4"], some 90, false, true, false, false, true, true⟩

section StepLemmas

variable {u ms r c : ℚ}

lemma stepMaxStart_nonneg : 0 ≤ stepMaxStart c r := le_max_left 0 _

lemma stepStart_nonneg (hu : 0 ≤ u) : 0 ≤ stepStart u ms := by
  unfold stepStart
  split_ifs with h
  · exact mul_nonneg hu (le_of_lt h)
  · exact le_refl 0

lemma stepStart_le (hu : u ≤ 1) (hms : 0 ≤ ms) : stepStart u ms ≤ ms := by
  unfold stepStart
  split_ifs with h
  · exact mul_le_of_le_one_left (le_of_lt h) hu
  · exact hms

lemma stepDur_le_req {s : ℚ} : stepDur r c s ≤ r := min_le_left _ _

lemma stepDur_add_le {s : ℚ} : s + stepDur r c s ≤ c := by
  have h := min_le_right r (c - s)
  unfold stepDur
  linarith

lemma max_pos_eq {X : ℚ} (h : 0 < max 0 X) : max 0 X = X := by
  rcases lt_max_iff.mp h with h0 | h0
  · exact absurd h0 (lt_irrefl 0)
  · exact max_eq_right (le_of_lt h0)

/-- Either the drawn start leaves room for the full requested duration, or
the start collapsed to `0` and the actual duration is `min req clipDur`. -/
lemma stepDur_cases (hu1 : u ≤ 1) :
    stepDur r c (stepStart u (stepMaxStart c r)) = r ∨
      (stepStart u (stepMaxStart c r) = 0 ∧
        stepDur r c (stepStart u (stepMaxStart c r)) = min r c) := by
  by_cases h : 0 < stepMaxStart c r
  · left
    have hms : stepMaxStart c r = c - r - 1/2 := max_pos_eq h
    have hle : stepStart u (stepMaxStart c r) ≤ c - r - 1/2 :=
      calc stepStart u (stepMaxStart c r) ≤ stepMaxStart c r :=
            stepStart_le hu1 (le_of_lt h)
        _ = c - r - 1/2 := hms
    unfold stepDur
    have : r ≤ c - stepStart u (stepMaxStart c r) := by linarith
    exact min_eq_left this
  · right
    have hz : stepStart u (stepMaxStart c r) = 0 := by
      unfold stepStart
      exact if_neg h
    refine ⟨hz, ?_⟩
    rw [hz]
    unfold stepDur
    rw [sub_zero]

lemma stepDur_pos (hu1 : u ≤ 1) (hr : 0 < r) (hc : 0 < c) :
    0 < stepDur r c (stepStart u (stepMaxStart c r)) := by
  rcases stepDur_cases hu1 (r := r) (c := c) with h | ⟨_, h⟩
  · rw [h]; exact hr
  · rw [h]; exact lt_min hr hc

lemma stepDur_lower (hu1 : u ≤ 1) :
    min r c ≤ stepDur r c (stepStart u (stepMaxStart c r)) := by
  rcases stepDur_cases hu1 (r := r) (c := c) with h | ⟨_, h⟩
  · rw [h]; exact min_le_left r c
  · rw [h]

lemma stepDur_eq_req (hu1 : u ≤ 1) (hbig : r + 1/2 ≤ c) :
    stepDur r c (stepStart u (stepMaxStart c r)) = r := by
  rcases stepDur_cases hu1 (r := r) (c := c) with h | ⟨_, h⟩
  · exact h
  · rw [h]; exact min_eq_left (by linarith)

lemma stepStart_zero_of_short (hshort : c < r + 1/2) :
    stepStart u (stepMaxStart c r) = 0 := by
  have h : stepMaxStart c r = 0 := max_eq_left (by linarith)
  rw [h]
  unfold stepStart
  exact if_neg (lt_irrefl 0)

lemma stepClipDur_mem {clips : List ℚ} (hne : clips ≠ []) (idx : Nat) :
    stepClipDur clips idx ∈ clips := by
  have hlen : 0 < clips.length := List.length_pos.mpr hne
  have hlt : idx % clips.length < clips.length := Nat.mod_lt idx hlen
  unfold stepClipDur
  rw [clips.getD_eq_getElem 0 hlt]
  exact clips.getElem_mem hlt

lemma stepClipDur_pos {clips : List ℚ} (hne : clips ≠ [])
    (hpos : ∀ d ∈ clips, 0 < d) (idx : Nat) : 0 < stepClipDur clips idx :=
  hpos _ (stepClipDur_mem hne idx)

lemma stepReq_pos {total current : ℚ} (h : current < total) :
    0 < stepReq total current := lt_min (by norm_num) (by linarith)

lemma stepReq_le {total current : ℚ} : stepReq total current ≤ total - current :=
  min_le_right _ _

end StepLemmas

section PlanStepLemmas

variable (clips : List ℚ) (total u : ℚ) (t : String) (current : ℚ) (idx : Nat)

lemma planStep_req : (planStep clips total u t current idx).req = stepReq total current := rfl

lemma planStep_clipDur :
    (planStep clips total u t current idx).clipDur = stepClipDur clips idx := rfl

lemma planStep_clipIdx :
    (planStep clips total u t current idx).clipIdx = idx % clips.length := rfl

lemma planStep_transition : (planStep clips total u t current idx).transition = t := rfl

lemma planStep_start :
    (planStep clips total u t current idx).start =
      stepStart u (stepMaxStart (stepClipDur clips idx) (stepReq total current)) := rfl

lemma planStep_dur :
    (planStep clips total u t current idx).dur =
      stepDur (stepReq total current) (stepClipDur clips idx)
        (stepStart u (stepMaxStart (stepClipDur clips idx) (stepReq total current))) := rfl

lemma planStep_dur_le : (planStep clips total u t current idx).dur ≤ total - current := by
  rw [planStep_dur]
  exact le_trans stepDur_le_req stepReq_le

lemma planStep_dur_pos (hne : clips ≠ []) (hpos : ∀ d ∈ clips, 0 < d)
    (hu1 : u ≤ 1) (hlt : current < total) :
    0 < (planStep clips total u t current idx).dur := by
  rw [planStep_dur]
  exact stepDur_pos hu1 (stepReq_pos hlt) (stepClipDur_pos hne hpos idx)

end PlanStepLemmas

section LoopLemmas

variable {clips : List ℚ} {total : ℚ} {us : Nat → ℚ} {trans : Nat → String}

/-- The cumulative time plus the durations still to be emitted always add
up to the target total duration: the loop never overshoots and stops
exactly at the target. -/
lemma planLoop_sum :
    ∀ (fuel : Nat) (current : ℚ) (idx : Nat) (segs : List Segment),
      planLoop clips total us trans fuel current idx = some segs →
      current ≤ total →
      current + (segs.map Segment.dur).sum = total := by
  intro fuel
  induction fuel with
  | zero => intro current idx segs h; simp [planLoop] at h
  | succ fuel ih =>
    intro current idx segs h hle
    by_cases hlt : current < total
    · simp only [planLoop, if_pos hlt, Option.map_eq_some'] at h
      obtain ⟨tail, htail, hcons⟩ := h
      have hdle := planStep_dur_le clips total (us idx) (trans idx) current idx
      have hle' : current + (planStep clips total (us idx) (trans idx) current idx).dur ≤ total := by
        linarith
      have hsum := ih _ _ _ htail hle'
      rw [← hcons]
      simp only [List.map_cons, List.sum_cons]
      linarith
    · have hseg : segs = [] := by
        rw [planLoop, if_neg hlt] at h
        exact (Option.some_injective _ h).symm
      subst hseg
      simp only [List.map_nil, List.sum_nil, add_zero]
      linarith

/-- Every running prefix of the emitted durations stays below the target:
the cumulative time never exceeds the total. -/
lemma planLoop_take_le :
    ∀ (fuel : Nat) (current : ℚ) (idx : Nat) (segs : List Segment),
      planLoop clips total us trans fuel current idx = some segs →
      current ≤ total →
      ∀ n, current + ((segs.take n).map Segment.dur).sum ≤ total := by
  intro fuel
  induction fuel with
  | zero => intro current idx segs h; simp [planLoop] at h
  | succ fuel ih =>
    intro current idx segs h hle n
    by_cases hlt : current < total
    · simp only [planLoop, if_pos hlt, Option.map_eq_some'] at h
      obtain ⟨tail, htail, hcons⟩ := h
      have hdle := planStep_dur_le clips total (us idx) (trans idx) current idx
      have hle' : current + (planStep clips total (us idx) (trans idx) current idx).dur ≤ total := by
        linarith
      rw [← hcons]
      match n with
      | 0 => simpa using hle
      | n + 1 =>
        have := ih _ _ _ htail hle' n
        simp only [List.take_succ_cons, List.map_cons, List.sum_cons]
        linarith
    · have hseg : segs = [] := by
        rw [planLoop, if_neg hlt] at h
        exact (Option.some_injective _ h).symm
      subst hseg
      simp only [List.take_nil, List.map_nil, List.sum_nil, add_zero]
      exact hle

/-- Per-segment safety facts: start offsets are within bounds, the segment
never requests more than the clip contains, durations are positive, and the
recorded clip data points back into the pool. -/
lemma planLoop_mem (hne : clips ≠ []) (hpos : ∀ d ∈ clips, 0 < d)
    (hus : ∀ i, 0 ≤ us i ∧ us i ≤ 1) :
    ∀ (fuel : Nat) (current : ℚ) (idx : Nat) (segs : List Segment),
      planLoop clips total us trans fuel current idx = some segs →
      ∀ seg ∈ segs,
        0 ≤ seg.start ∧
        seg.start ≤ max 0 (seg.clipDur - seg.req - 1/2) ∧
        seg.start + seg.dur ≤ seg.clipDur ∧
        0 < seg.dur ∧
        seg.clipIdx < clips.length ∧
        seg.clipDur = clips.getD seg.clipIdx 0 ∧
        (seg.clipDur < seg.req + 1/2 → seg.start = 0) := by
  intro fuel
  induction fuel with
  | zero => intro current idx segs h; simp [planLoop] at h
  | succ fuel ih =>
    intro current idx segs h seg hseg
    by_cases hlt : current < total
    · simp only [planLoop, if_pos hlt, Option.map_eq_some'] at h
      obtain ⟨tail, htail, hcons⟩ := h
      rw [← hcons] at hseg
      rcases List.mem_cons.mp hseg with rfl | htl
      · refine ⟨?_, ?_, ?_, ?_, ?_, ?_, ?_⟩
        · rw [planStep_start]
          exact stepStart_nonneg (hus idx).1
        · rw [planStep_start, planStep_clipDur, planStep_req]
          exact stepStart_le (hus idx).2 stepMaxStart_nonneg
        · rw [planStep_start, planStep_dur, planStep_clipDur]
          exact stepDur_add_le
        · exact planStep_dur_pos clips total (us idx) (trans idx) current idx hne hpos
            (hus idx).2 hlt
        · rw [planStep_clipIdx]
          exact Nat.mod_lt idx (List.length_pos.mpr hne)
        · rw [planStep_clipIdx, planStep_clipDur]
          rfl
        · intro hshort
          rw [planStep_clipDur, planStep_req] at hshort
          rw [planStep_start]
          exact stepStart_zero_of_short hshort
      · exact ih _ _ _ htail seg htl
    · have hseg' : segs = [] := by
        rw [planLoop, if_neg hlt] at h
        exact (Option.some_injective _ h).symm
      subst hseg'
      exact absurd hseg (List.not_mem_nil seg)

/-- Position `j` of the emitted plan carries the transition drawn at loop
iteration `idx + j` and the clip cycled at that iteration. -/
lemma planLoop_get :
    ∀ (fuel : Nat) (current : ℚ) (idx : Nat) (segs : List Segment),
      planLoop clips total us trans fuel current idx = some segs →
      ∀ (j : Nat) (hj : j < segs.length),
        (segs.get ⟨j, hj⟩).transition = trans (idx + j) ∧
        (segs.get ⟨j, hj⟩).clipIdx = (idx + j) % clips.length := by
  intro fuel
  induction fuel with
  | zero => intro current idx segs h; simp [planLoop] at h
  | succ fuel ih =>
    intro current idx segs h j hj
    by_cases hlt : current < total
    · simp only [planLoop, if_pos hlt, Option.map_eq_some'] at h
      obtain ⟨tail, htail, hcons⟩ := h
      subst hcons
      match j with
      | 0 =>
        constructor
        · rw [Nat.add_zero]
          exact planStep_transition clips total (us idx) (trans idx) current idx
        · rw [Nat.add_zero]
          exact planStep_clipIdx clips total (us idx) (trans idx) current idx
      | j + 1 =>
        have hj' : j < tail.length := Nat.lt_of_succ_lt_succ hj
        have := ih _ _ _ htail j hj'
        have harith : idx + 1 + j = idx + (j + 1) := by omega
        rw [harith] at this
        exact this
    · have hseg : segs = [] := by
        rw [planLoop, if_neg hlt] at h
        exact (Option.some_injective _ h).symm
      subst hseg
      exact absurd hj (by simp)

/-- When every clip of the pool is at least half a second longer than the
2-second nominal duration, every emitted actual duration equals the
requested duration, so the plan's durations are exactly the greedy
2-second chunking of the target total. -/
lemma planLoop_map_dur (hne : clips ≠ []) (hbig : ∀ d ∈ clips, 2 + 1/2 ≤ d)
    (hus : ∀ i, 0 ≤ us i ∧ us i ≤ 1) :
    ∀ (fuel : Nat) (current : ℚ) (idx : Nat) (segs : List Segment),
      planLoop clips total us trans fuel current idx = some segs →
      segs.map Segment.dur = chunkDurs total fuel current := by
  intro fuel
  induction fuel with
  | zero => intro current idx segs h; simp [planLoop] at h
  | succ fuel ih =>
    intro current idx segs h
    by_cases hlt : current < total
    · simp only [planLoop, if_pos hlt, Option.map_eq_some'] at h
      obtain ⟨tail, htail, hcons⟩ := h
      have hdur : (planStep clips total (us idx) (trans idx) current idx).dur =
          stepReq total current := by
        rw [planStep_dur]
        refine stepDur_eq_req (hus idx).2 ?_
        have hmem := stepClipDur_mem hne idx
        have h2 : stepReq total current ≤ 2 := min_le_left _ _
        have := hbig _ hmem
        linarith
      rw [← hcons]
      rw [chunkDurs, if_pos hlt]
      simp only [List.map_cons]
      rw [hdur] at htail ⊢
      rw [ih _ _ _ htail]
      rfl
    · have hseg : segs = [] := by
        rw [planLoop, if_neg hlt] at h
        exact (Option.some_injective _ h).symm
      subst hseg
      rw [chunkDurs, if_neg hlt]
      rfl

/-- With fuel at least `total / min 2 m` (where `m` bounds the clip pool's
durations from below), the planning loop finishes. -/
lemma planLoop_isSome (hne : clips ≠ []) (hus : ∀ i, 0 ≤ us i ∧ us i ≤ 1)
    {m : ℚ} (hm : 0 < m) (hlow : ∀ d ∈ clips, m ≤ d) :
    ∀ (fuel : Nat) (current : ℚ) (idx : Nat),
      total - current ≤ (fuel : ℚ) * min 2 m →
      (planLoop clips total us trans (fuel + 1) current idx).isSome := by
  intro fuel
  induction fuel with
  | zero =>
    intro current idx hb
    have hlt : ¬ current < total := by
      simp only [Nat.cast_zero, zero_mul] at hb
      linarith
    rw [planLoop, if_neg hlt]
    rfl
  | succ fuel ih =>
    intro current idx hb
    by_cases hlt : current < total
    · -- the emitted duration eats at least `min 2 m` of the remaining time,
      -- unless it finishes the remaining time exactly
      have hc2 : min 2 m ≤ 2 := min_le_left _ _
      have hcm : min 2 m ≤ m := min_le_right _ _
      have hc : 0 < min 2 m := lt_min (by norm_num) hm
      have hcd : m ≤ stepClipDur clips idx := hlow _ (stepClipDur_mem hne idx)
      have hdl : (planStep clips total (us idx) (trans idx) current idx).dur ≤
          stepReq total current := by
        rw [planStep_dur]; exact stepDur_le_req
      have hdlow : min (stepReq total current) (stepClipDur clips idx) ≤
          (planStep clips total (us idx) (trans idx) current idx).dur := by
        rw [planStep_dur]; exact stepDur_lower (hus idx).2
      have hbound : total -
          (current + (planStep clips total (us idx) (trans idx) current idx).dur) ≤
          (fuel : ℚ) * min 2 m := by
        rw [Nat.cast_succ] at hb
        by_cases h2 : 2 ≤ total - current
        · have hreq : stepReq total current = 2 := min_eq_left h2
          have : min 2 m ≤ min (stepReq total current) (stepClipDur clips idx) := by
            rw [hreq]
            exact min_le_min (le_refl 2) hcd
          linarith
        · have hreq : stepReq total current = total - current :=
            min_eq_right (by linarith)
          by_cases h3 : total - current ≤ stepClipDur clips idx
          · have : min (stepReq total current) (stepClipDur clips idx) =
                total - current := by
              rw [hreq]
              exact min_eq_left h3
            have hnn : (0 : ℚ) ≤ (fuel : ℚ) * min 2 m :=
              mul_nonneg (Nat.cast_nonneg fuel) (le_of_lt hc)
            rw [hreq] at hdl
            linarith
          · have : min (stepReq total current) (stepClipDur clips idx) =
                stepClipDur clips idx := by
              rw [hreq]
              exact min_eq_right (by linarith)
            linarith
      have hih := ih
        (current + (planStep clips total (us idx) (trans idx) current idx).dur)
        (idx + 1) hbound
      obtain ⟨tail, htail⟩ := Option.isSome_iff_exists.mp hih
      rw [planLoop, if_pos hlt]
      simp only [htail, Option.map_some', Option.isSome_some]
    · rw [planLoop, if_neg hlt]
      rfl

/-- Every pool of positive durations has a positive lower bound. -/
lemma exists_lower_bound (l : List ℚ) :
    (∀ d ∈ l, 0 < d) → ∃ m : ℚ, 0 < m ∧ ∀ d ∈ l, m ≤ d := by
  induction l with
  | nil => exact fun _ => ⟨1, one_pos, fun d hd => absurd hd (List.not_mem_nil d)⟩
  | cons a l ihl =>
    intro h
    obtain ⟨m, hm, hle⟩ := ihl (fun d hd => h d (List.mem_cons_of_mem a hd))
    refine ⟨min a m, lt_min (h a (List.mem_cons_self a l)) hm, ?_⟩
    intro d hd
    rcases List.mem_cons.mp hd with rfl | hd
    · exact min_le_left _ _
    · exact le_trans (min_le_right _ _) (hle d hd)

/-- The planning loop terminates: some finite fuel completes it. -/
lemma planLoop_terminates (hne : clips ≠ []) (hpos : ∀ d ∈ clips, 0 < d)
    (hus : ∀ i, 0 ≤ us i ∧ us i ≤ 1) :
    ∃ (fuel : Nat) (segs : List Segment),
      planLoop clips total us trans fuel 0 0 = some segs := by
  obtain ⟨m, hm, hlow⟩ := exists_lower_bound clips hpos
  have hc : 0 < min 2 m := lt_min (by norm_num) hm
  set fuel := ⌈total / min 2 m⌉₊ with hfuel
  have hb : total - 0 ≤ (fuel : ℚ) * min 2 m := by
    rw [sub_zero]
    have h1 : total / min 2 m ≤ (fuel : ℚ) := Nat.le_ceil _
    calc total = total / min 2 m * min 2 m := by field_simp
      _ ≤ (fuel : ℚ) * min 2 m := by
          exact mul_le_mul_of_nonneg_right h1 (le_of_lt hc)
  have hs : (planLoop clips total us trans (fuel + 1) 0 0).isSome :=
    planLoop_isSome hne hus hm hlow fuel 0 0 hb
  obtain ⟨segs, hsegs⟩ := Option.isSome_iff_exists.mp hs
  exact ⟨fuel + 1, segs, hsegs⟩

lemma planBeat_def (clips : List ℚ) (bt : List ℚ) (us : Nat → ℚ)
    (cs : Nat → Fin 12) (fuel : Nat) :
    planBeat clips bt us cs fuel =
      planLoop clips (bt.getLast?.getD 0 - bt.headI) us
        (fun i => transition_styles.getD (cs i) "fade") fuel 0 0 := rfl

lemma planNoBeat_def (clips : List ℚ) (ad : Option ℚ) (us : Nat → ℚ) (fuel : Nat) :
    planNoBeat clips ad us fuel =
      planLoop clips (ad.getD 10) us (fun _ => "fade") fuel 0 0 := rfl

end LoopLemmas

section ControllerLemmas

lemma create_placeholder_events (env : Env) :
    (create_placeholder_video env).events = [.placeholderTier] := by
  unfold create_placeholder_video
  split_ifs <;> rfl

lemma create_placeholder_raised (env : Env) :
    (create_placeholder_video env).raised = !env.placeholderCmdOk := by
  unfold create_placeholder_video
  cases h : env.placeholderCmdOk <;> simp [h]

lemma moviepy_call_events (env : Env) :
    (beat_synced_reel_moviepy_call env).events = [.moviepyTier] := by
  unfold beat_synced_reel_moviepy_call
  split_ifs <;> rfl

lemma simple_video_concat_events (env : Env) :
    ∃ rest, (simple_video_concat env).events = .concatTier :: rest := by
  simp only [simple_video_concat]
  split_ifs <;> exact ⟨_, rfl⟩

/-- Unfolding of the controller when the MoviePy libraries are available
(editing.py lines 157-170). -/
lemma beat_synced_reel_available (env : Env)
    (hml : (env.moviepyAvailable && env.librosaAvailable) = true) :
    beat_synced_reel env =
      if (beat_synced_reel_moviepy_call env).raised = false then
        ((beat_synced_reel_moviepy_call env).events, false)
      else if (simple_video_concat env).raised = false then
        ((beat_synced_reel_moviepy_call env).events ++
          (simple_video_concat env).events, false)
      else
        ((beat_synced_reel_moviepy_call env).events ++
          (simple_video_concat env).events ++
          (create_placeholder_video env).events,
          (create_placeholder_video env).raised) := by
  unfold beat_synced_reel
  rw [hml]
  by_cases h1 : (beat_synced_reel_moviepy_call env).raised
  · by_cases h2 : (simple_video_concat env).raised
    · simp [h1, h2]
    · simp [h1, h2]
  · simp [h1]

/-- Unfolding of the controller when the MoviePy libraries are unavailable
(editing.py lines 164-170). -/
lemma beat_synced_reel_unavailable (env : Env)
    (hml : (env.moviepyAvailable && env.librosaAvailable) = false) :
    beat_synced_reel env =
      if (simple_video_concat env).raised = false then
        ((simple_video_concat env).events, false)
      else
        ((simple_video_concat env).events ++ (create_placeholder_video env).events,
          (create_placeholder_video env).raised) := by
  unfold beat_synced_reel
  rw [hml]
  by_cases h2 : (simple_video_concat env).raised
  · simp [h2]
  · simp [h2]

end ControllerLemmas

lemma usZero_bounds : ∀ i, 0 ≤ usZero i ∧ usZero i ≤ 1 :=
  fun _ => ⟨le_refl 0, by norm_num [usZero]⟩

lemma posSingleton3 : ∀ d ∈ [(3 : ℚ)], 0 < d := by
  intro d hd
  simp only [List.mem_singleton] at hd
  rw [hd]
  norm_num

/-- C1: for every input with a non-empty normalized-clip pool (each clip of
positive duration) and a positive target total duration — the beat span in
the beat-driven branch, the best-effort audio duration in the no-beat
branch — the durations of the planned segments sum to the target total
duration within 1e-3 (the model sums to it exactly), and no running prefix
of the cumulative time exceeds the target. -/
theorem C1_sum_matches_target (clips : List ℚ) (us : Nat → ℚ)
    (hne : clips ≠ []) (hpos : ∀ d ∈ clips, 0 < d)
    (hus : ∀ i, 0 ≤ us i ∧ us i ≤ 1) :
    (∀ (beatTimes : List ℚ) (cs : Nat → Fin 12) (fuel : Nat) (segs : List Segment),
        planBeat clips beatTimes us cs fuel = some segs →
        0 < beatTimes.getLast?.getD 0 - beatTimes.headI →
        |(segs.map Segment.dur).sum - (beatTimes.getLast?.getD 0 - beatTimes.headI)| ≤
            1/1000 ∧
          ∀ n, ((segs.take n).map Segment.dur).sum ≤
            beatTimes.getLast?.getD 0 - beatTimes.headI) ∧
    (∀ (audioDur : Option ℚ) (fuel : Nat) (segs : List Segment),
        planNoBeat clips audioDur us fuel = some segs →
        0 < audioDur.getD 10 →
        |(segs.map Segment.dur).sum - audioDur.getD 10| ≤ 1/1000 ∧
          ∀ n, ((segs.take n).map Segment.dur).sum ≤ audioDur.getD 10) := by
  constructor
  · intro bt cs fuel segs hplan hT
    rw [planBeat_def] at hplan
    have hsum := planLoop_sum fuel 0 0 segs hplan (le_of_lt hT)
    constructor
    · rw [zero_add] at hsum
      rw [hsum]
      simp
    · intro n
      have := planLoop_take_le fuel 0 0 segs hplan (le_of_lt hT) n
      linarith
  · intro ad fuel segs hplan hT
    rw [planNoBeat_def] at hplan
    have hsum := planLoop_sum fuel 0 0 segs hplan (le_of_lt hT)
    constructor
    · rw [zero_add] at hsum
      rw [hsum]
      simp
    · intro n
      have := planLoop_take_le fuel 0 0 segs hplan (le_of_lt hT) n
      linarith

unseal Rat.add Rat.sub Rat.mul Rat.inv Rat.ofScientific in
/-- Concrete instance of C1: one 3-second clip, beat grid `[0, 5]` (span 5),
zero random draws. -/
theorem C1_sum_matches_target_witness :
    |(segsW1.map Segment.dur).sum -
        (([(0 : ℚ), 5].getLast?.getD 0 - [(0 : ℚ), 5].headI))| ≤ 1/1000 ∧
      ((segsW1.take 2).map Segment.dur).sum ≤
        [(0 : ℚ), 5].getLast?.getD 0 - [(0 : ℚ), 5].headI := by
  have h := (C1_sum_matches_target [3] usZero (by decide) posSingleton3
      usZero_bounds).1
    [(0 : ℚ), 5] csZero 5 segsW1 (by decide) (by decide)
  exact ⟨h.1, h.2 2⟩

/-- C2: every emitted segment has a start offset within
`[0, max(0, clip.duration - requested_duration - 0.5)]`, never requests
more than the clip contains (`start + actual_duration ≤ clip.duration`,
hence also `≤ clip.duration + 1e-3`), records a clip really in the pool,
and collapses its start to `0` whenever the cycled clip is shorter than the
requested duration plus the 0.5-second buffer. -/
theorem C2_segment_bounds (clips : List ℚ) (total : ℚ) (us : Nat → ℚ)
    (trans : Nat → String) (fuel : Nat) (segs : List Segment)
    (hne : clips ≠ []) (hpos : ∀ d ∈ clips, 0 < d)
    (hus : ∀ i, 0 ≤ us i ∧ us i ≤ 1)
    (hplan : planLoop clips total us trans fuel 0 0 = some segs) :
    ∀ seg ∈ segs,
      0 ≤ seg.start ∧
      seg.start ≤ max 0 (seg.clipDur - seg.req - 1/2) ∧
      seg.start + seg.dur ≤ seg.clipDur ∧
      seg.start + seg.dur ≤ seg.clipDur + 1/1000 ∧
      seg.clipIdx < clips.length ∧
      seg.clipDur = clips.getD seg.clipIdx 0 ∧
      (seg.clipDur < seg.req + 1/2 → seg.start = 0) := by
  intro seg hseg
  obtain ⟨h1, h2, h3, _h4, h5, h6, h7⟩ :=
    planLoop_mem hne hpos hus fuel 0 0 segs hplan seg hseg
  exact ⟨h1, h2, h3, by linarith, h5, h6, h7⟩

unseal Rat.add Rat.sub Rat.mul Rat.inv Rat.ofScientific in
/-- Concrete instance of C2: the first segment of the plan for one 3-second
clip and target total duration 5. -/
theorem C2_segment_bounds_witness :
    0 ≤ (segsW1.headI).start ∧
      (segsW1.headI).start ≤
        max 0 ((segsW1.headI).clipDur - (segsW1.headI).req - 1/2) ∧
      (segsW1.headI).start + (segsW1.headI).dur ≤ (segsW1.headI).clipDur ∧
      (segsW1.headI).start + (segsW1.headI).dur ≤ (segsW1.headI).clipDur + 1/1000 ∧
      (segsW1.headI).clipIdx < [(3 : ℚ)].length ∧
      (segsW1.headI).clipDur = [(3 : ℚ)].getD (segsW1.headI).clipIdx 0 ∧
      ((segsW1.headI).clipDur < (segsW1.headI).req + 1/2 →
        (segsW1.headI).start = 0) :=
  C2_segment_bounds [3] 5 usZero (fun _ => "fade") 5 segsW1 (by decide)
    posSingleton3 usZero_bounds (by decide) segsW1.headI (by decide)

/-- C10: for every input with a non-empty clip pool of strictly positive
durations and a finite target total duration, the segment-planning loop
terminates after finitely many iterations (some finite fuel suffices) and
every emitted segment has strictly positive actual duration. -/
theorem C10_planner_terminates (clips : List ℚ) (total : ℚ) (us : Nat → ℚ)
    (trans : Nat → String) (hne : clips ≠ []) (hpos : ∀ d ∈ clips, 0 < d)
    (hus : ∀ i, 0 ≤ us i ∧ us i ≤ 1) :
    ∃ (fuel : Nat) (segs : List Segment),
      planLoop clips total us trans fuel 0 0 = some segs ∧
        ∀ seg ∈ segs, 0 < seg.dur := by
  obtain ⟨fuel, segs, h⟩ := planLoop_terminates hne hpos hus
  refine ⟨fuel, segs, h, fun seg hseg => ?_⟩
  exact (planLoop_mem hne hpos hus fuel 0 0 segs h seg hseg).2.2.2.1

/-- C3 counterexample: with an empty clip folder the render does not fail
with a fatal error checked before the tiers, and a placeholder can be
produced: with the MoviePy libraries available the MoviePy tier returns
without output and no error reaches the caller; with them unavailable the
placeholder tier IS attempted and the render reports success. -/
theorem C3_counterexample :
    beat_synced_reel envEmptyA = ([.moviepyTier], false) ∧
      beat_synced_reel envEmptyB = ([.concatTier, .placeholderTier], false) ∧
      Event.placeholderTier ∈ (beat_synced_reel envEmptyB).1 := by
  refine ⟨by decide, by decide, by decide⟩

/-- C3 (amended): when the clip folder contains zero files with a
recognized video extension, the precondition is checked inside each tier
and never before the tiers, and no fatal error is surfaced: if the MoviePy
tier runs and audio analysis succeeds, it returns without output and
without error; if the MoviePy libraries are unavailable, the concatenation
tier raises FileNotFoundError, the controller catches it and attempts the
placeholder tier, whose ffmpeg failure alone would reach the caller. -/
theorem C3_empty_folder_behavior (env : Env)
    (hempty : videoFiles env.files = []) :
    ((env.moviepyAvailable && env.librosaAvailable) = true →
        env.analysisRaises = false →
        beat_synced_reel env = ([.moviepyTier], false)) ∧
      ((env.moviepyAvailable && env.librosaAvailable) = false →
        beat_synced_reel env =
          ([.concatTier, .placeholderTier], !env.placeholderCmdOk)) := by
  constructor
  · intro hml hana
    rw [beat_synced_reel_available env hml]
    have hm : (beat_synced_reel_moviepy_call env).raised = false := by
      simp [beat_synced_reel_moviepy_call, hana, hempty]
    rw [if_pos hm, moviepy_call_events]
  · intro hml
    rw [beat_synced_reel_unavailable env hml]
    have hs : (simple_video_concat env).raised = true := by
      simp [simple_video_concat, hempty]
    have hsev : (simple_video_concat env).events = [.concatTier] := by
      simp [simple_video_concat, hempty]
    rw [if_neg (by simp [hs]), hsev, create_placeholder_events,
      create_placeholder_raised]
    rfl

/-- Concrete instance of C3 (amended): empty folder with MoviePy
unavailable. -/
theorem C3_empty_folder_behavior_witness :
    ((envEmptyB.moviepyAvailable && envEmptyB.librosaAvailable) = true →
        envEmptyB.analysisRaises = false →
        beat_synced_reel envEmptyB = ([.moviepyTier], false)) ∧
      ((envEmptyB.moviepyAvailable && envEmptyB.librosaAvailable) = false →
        beat_synced_reel envEmptyB =
          ([.concatTier, .placeholderTier], !envEmptyB.placeholderCmdOk)) :=
  C3_empty_folder_behavior envEmptyB (by decide)

/-- C4: with the MoviePy libraries available, the controller attempts its
tiers in order with first success winning: if the primary pipeline returns
without raising, it alone runs and no failure is surfaced; if it raises,
the concatenation tier is invoked; if that also raises, the placeholder
tier is invoked; and a failure reaches the caller only when the placeholder
invocation itself fails. -/
theorem C4_fallback_tiers (env : Env)
    (hml : (env.moviepyAvailable && env.librosaAvailable) = true) :
    ((beat_synced_reel_moviepy_call env).raised = false →
        beat_synced_reel env = ([.moviepyTier], false)) ∧
      ((beat_synced_reel_moviepy_call env).raised = true →
        Event.concatTier ∈ (beat_synced_reel env).1) ∧
      ((beat_synced_reel_moviepy_call env).raised = true →
        (simple_video_concat env).raised = true →
        Event.placeholderTier ∈ (beat_synced_reel env).1) ∧
      ((beat_synced_reel env).2 = true →
        env.placeholderCmdOk = false ∧
          Event.placeholderTier ∈ (beat_synced_reel env).1) := by
  have hch := beat_synced_reel_available env hml
  refine ⟨?_, ?_, ?_, ?_⟩
  · intro h1
    rw [hch, if_pos h1, moviepy_call_events]
  · intro h1
    rw [hch, if_neg (by simp [h1])]
    obtain ⟨rest, hrest⟩ := simple_video_concat_events env
    by_cases h2 : (simple_video_concat env).raised = false
    · rw [if_pos h2]
      simp [hrest]
    · rw [if_neg h2]
      simp [hrest]
  · intro h1 h2
    rw [hch, if_neg (by simp [h1]), if_neg (by simp [h2]),
      create_placeholder_events]
    simp
  · intro hres
    rw [hch] at hres
    by_cases h1 : (beat_synced_reel_moviepy_call env).raised = false
    · rw [if_pos h1] at hres
      exact absurd hres (by simp)
    · rw [if_neg h1] at hres
      by_cases h2 : (simple_video_concat env).raised = false
      · rw [if_pos h2] at hres
        exact absurd hres (by simp)
      · rw [if_neg h2] at hres
        have hok : env.placeholderCmdOk = false := by
          rw [create_placeholder_raised] at hres
          cases h : env.placeholderCmdOk
          · rfl
          · rw [h] at hres
            exact absurd hres (by simp)
        refine ⟨hok, ?_⟩
        rw [hch, if_neg h1, if_neg h2, create_placeholder_events]
        simp

/-- Concrete instance of C4: one clip, the MoviePy pipeline raises after
its clip check, ffmpeg works. -/
theorem C4_fallback_tiers_witness :
    ((beat_synced_reel_moviepy_call envPrimaryFails).raised = false →
        beat_synced_reel envPrimaryFails = ([.moviepyTier], false)) ∧
      ((beat_synced_reel_moviepy_call envPrimaryFails).raised = true →
        Event.concatTier ∈ (beat_synced_reel envPrimaryFails).1) ∧
      ((beat_synced_reel_moviepy_call envPrimaryFails).raised = true →
        (simple_video_concat envPrimaryFails).raised = true →
        Event.placeholderTier ∈ (beat_synced_reel envPrimaryFails).1) ∧
      ((beat_synced_reel envPrimaryFails).2 = true →
        envPrimaryFails.placeholderCmdOk = false ∧
          Event.placeholderTier ∈ (beat_synced_reel envPrimaryFails).1) :=
  C4_fallback_tiers envPrimaryFails (by decide)

/-- C6 (amended): when the secondary tier runs with a readable audio file
of true duration `d` and a non-empty clip folder, it splits the
60-second-capped audio duration evenly across the clips
(`duration_per_video = min(d, 60) / clip_count`), caps the ffmpeg output at
`-t min(d, 60)`, and the produced output's audio duration is `min(d, 60)`:
this equals the input's true duration (and so matches it within 0.1 s)
exactly when `d ≤ 60` — the 60-second Instagram cap of
`get_audio_duration` breaks the match for longer audio. -/
theorem C6_concat_duration (env : Env) (d : ℚ)
    (hprobe : env.audioProbe = some d)
    (hfiles : videoFiles env.files ≠ []) (hok : env.concatCmdOk = true) :
    (simple_video_concat env).raised = false ∧
      (simple_video_concat env).perVideo =
        some (min d 60 / ((videoFiles env.files).length : ℚ)) ∧
      (simple_video_concat env).output = some (min d 60) ∧
      min d 60 ≤ d ∧
      (d ≤ 60 → (simple_video_concat env).output = some d) := by
  have hemp : (videoFiles env.files).isEmpty = false := by
    cases hv : videoFiles env.files
    · exact absurd hv hfiles
    · rfl
  have hga : get_audio_duration env.audioProbe = min d 60 := by
    rw [hprobe]
    rfl
  refine ⟨?_, ?_, ?_, min_le_left d 60, ?_⟩
  · simp [simple_video_concat, hemp, hok]
  · simp [simple_video_concat, hemp, hok, hga]
  · simp [simple_video_concat, hemp, hok, hga]
  · intro hle
    have : min d 60 = d := min_eq_left hle
    simp [simple_video_concat, hemp, hok, hga, this]

unseal Rat.add Rat.sub Rat.mul Rat.inv Rat.ofScientific in
/-- Concrete instance of C6 (amended): one clip and a readable 90-second
audio file. -/
theorem C6_concat_duration_witness :
    (simple_video_concat envLongAudio).raised = false ∧
      (simple_video_concat envLongAudio).perVideo =
        some (min 90 60 / ((videoFiles envLongAudio.files).length : ℚ)) ∧
      (simple_video_concat envLongAudio).output = some (min 90 60) ∧
      min (90 : ℚ) 60 ≤ 90 ∧
      ((90 : ℚ) ≤ 60 → (simple_video_concat envLongAudio).output = some 90) :=
  C6_concat_duration envLongAudio 90 rfl (by decide) rfl

/-- C6 counterexample: with a readable 90-second audio file the secondary
tier's output has duration `min(90, 60) = 60` (get_audio_duration caps at
60 seconds for Instagram), which differs from the input's true 90-second
duration by 30 seconds, far beyond the claimed 0.1-second tolerance. -/
theorem C6_counterexample :
    (simple_video_concat envLongAudio).output = some 60 ∧
      ¬ |(60 : ℚ) - 90| ≤ 1/10 := by
  constructor
  · decide
  · intro habs
    have h : |(60 : ℚ) - 90| = 30 := by
      rw [abs_of_nonpos (by norm_num)]
      norm_num
    rw [h] at habs
    norm_num at habs

unseal Rat.add Rat.sub Rat.mul Rat.inv Rat.ofScientific in
/-- C5 counterexample: in the fewer-than-2-beats branch the transition is
not chosen at random from the 12 effects: for one 5-second clip and audio
duration 4, every emitted segment carries the fixed `fade` transition, and
an effect such as `zoom_in` — which a uniform choice over the 12 styles
would assign with positive probability — can never appear. -/
theorem C5_counterexample :
    planNoBeat [5] (some 4) usZero 4 = some segsW2 ∧
      segsW2.map Segment.transition = ["fade", "fade"] ∧
      "zoom_in" ∈ transition_styles ∧
      ¬ "zoom_in" ∈ segsW2.map Segment.transition := by
  refine ⟨by decide, by decide, by decide, by decide⟩

/-- C5 (amended): the 12 transition identifiers are pairwise distinct; in
the beat-driven branch each segment's transition is exactly the style the
per-iteration `random.choice` stream draws (independently per segment,
uniformly over the 12-element list when the stream is uniform); in the
fewer-than-2-beats branch no random choice occurs and every segment gets
the fixed `fade` transition. -/
theorem C5_transition_selection (clips : List ℚ) (us : Nat → ℚ) :
    transition_styles.length = 12 ∧
      transition_styles.Nodup ∧
      (∀ (bt : List ℚ) (cs : Nat → Fin 12) (fuel : Nat) (segs : List Segment),
        planBeat clips bt us cs fuel = some segs →
        ∀ (j : Nat) (hj : j < segs.length),
          (segs.get ⟨j, hj⟩).transition = transition_styles.getD (cs j) "fade") ∧
      (∀ (ad : Option ℚ) (fuel : Nat) (segs : List Segment),
        planNoBeat clips ad us fuel = some segs →
        ∀ seg ∈ segs, seg.transition = "fade") := by
  refine ⟨by decide, by decide, ?_, ?_⟩
  · intro bt cs fuel segs hplan j hj
    rw [planBeat_def] at hplan
    have := (planLoop_get fuel 0 0 segs hplan j hj).1
    rw [Nat.zero_add] at this
    exact this
  · intro ad fuel segs hplan seg hseg
    rw [planNoBeat_def] at hplan
    obtain ⟨⟨j, hj⟩, rfl⟩ := List.mem_iff_get.mp hseg
    exact (planLoop_get fuel 0 0 segs hplan j hj).1

unseal Rat.add Rat.sub Rat.mul Rat.inv Rat.ofScientific in
/-- Concrete instance of C5 (amended): instantiated at one 5-second clip
and the zero draw stream; the no-beat plan's head carries `fade`. -/
theorem C5_transition_selection_witness :
    transition_styles.length = 12 ∧ (segsW2.headI).transition = "fade" := by
  have h := C5_transition_selection [5] usZero
  exact ⟨h.1, h.2.2.2 (some 4) 4 segsW2 (by decide) segsW2.headI (by decide)⟩

unseal Rat.add Rat.sub Rat.mul Rat.inv Rat.ofScientific in
/-- C7: in the fewer-than-2-beats branch the planner uses fixed 2-second
segmentation over the audio duration when determinable (else the 10-second
default, which it also covers fully): for a 12.4-second no-beat audio and 2
clips each at least 2.5 seconds long it emits exactly 6 full 2-second
segments plus one final 0.4-second segment — 7 in total — cycling through
the two clips, and the durations sum to 12.4; for an undeterminable audio
duration the emitted durations sum to the 10-second default. -/
theorem C7_no_beat_fixed_segmentation (clips : List ℚ) (us : Nat → ℚ)
    (hlen : clips.length = 2) (hbig : ∀ d ∈ clips, 2 + 1/2 ≤ d)
    (hus : ∀ i, 0 ≤ us i ∧ us i ≤ 1) :
    (∃ segs : List Segment,
        planNoBeat clips (some (62/5)) us 8 = some segs ∧
          segs.length = 7 ∧
          segs.map Segment.dur = [2, 2, 2, 2, 2, 2, 2/5] ∧
          (segs.map Segment.dur).sum = 62/5 ∧
          ∀ (j : Nat) (hj : j < segs.length),
            (segs.get ⟨j, hj⟩).clipIdx = j % 2) ∧
      (∀ (fuel : Nat) (segs : List Segment),
        planNoBeat clips none us fuel = some segs →
        (segs.map Segment.dur).sum = 10) := by
  have hne : clips ≠ [] := by
    intro hc
    rw [hc] at hlen
    exact absurd hlen (by decide)
  constructor
  · have hlow : ∀ d ∈ clips, (2 + 1/2 : ℚ) ≤ d := hbig
    have hb : (62/5 : ℚ) - 0 ≤ (7 : Nat) * min 2 (2 + 1/2) := by
      norm_num
    have hsome : (planLoop clips ((62/5 : ℚ)) us (fun _ => "fade") (7 + 1) 0 0).isSome :=
      planLoop_isSome hne hus (by norm_num : (0:ℚ) < 2 + 1/2) hlow 7 0 0 hb
    obtain ⟨segs, hsegs⟩ := Option.isSome_iff_exists.mp hsome
    refine ⟨segs, ?_, ?_, ?_, ?_, ?_⟩
    · rw [planNoBeat_def]
      exact hsegs
    · have := planLoop_map_dur hne hbig hus 8 0 0 segs hsegs
      have hlength : segs.length = (segs.map Segment.dur).length :=
        (List.length_map segs Segment.dur).symm
      rw [hlength, this]
      decide
    · have := planLoop_map_dur hne hbig hus 8 0 0 segs hsegs
      rw [this]
      decide
    · have hsum := planLoop_sum 8 0 0 segs hsegs (by norm_num)
      linarith
    · intro j hj
      have := (planLoop_get 8 0 0 segs hsegs j hj).2
      rw [Nat.zero_add, hlen] at this
      exact this
  · intro fuel segs hplan
    rw [planNoBeat_def] at hplan
    have hsum := planLoop_sum fuel 0 0 segs hplan (by norm_num)
    simpa using hsum

unseal Rat.add Rat.sub Rat.mul Rat.inv Rat.ofScientific in
/-- Concrete instance of C7: two 3-second clips and the zero draw stream. -/
theorem C7_no_beat_fixed_segmentation_witness :
    (∃ segs : List Segment,
        planNoBeat [(3 : ℚ), 3] (some (62/5)) usZero 8 = some segs ∧
          segs.length = 7 ∧
          segs.map Segment.dur = [2, 2, 2, 2, 2, 2, 2/5] ∧
          (segs.map Segment.dur).sum = 62/5 ∧
          ∀ (j : Nat) (hj : j < segs.length),
            (segs.get ⟨j, hj⟩).clipIdx = j % 2) ∧
      (∀ (fuel : Nat) (segs : List Segment),
        planNoBeat [(3 : ℚ), 3] none usZero fuel = some segs →
        (segs.map Segment.dur).sum = 10) :=
  C7_no_beat_fixed_segmentation [3, 3] usZero (by decide) (by decide)
    usZero_bounds

/-- C8: for every source clip of positive width and height, the normalized
clip is exactly 1080 wide and 1920 tall: a wider-than-9:16 clip is scaled to
height 1920 and center-cropped to width 1080, any other clip is scaled to
width 1080 and center-cropped to height 1920 when the scaled height exceeds
1920 (and a clip already at 1080×1920 keeps its dimensions). -/
theorem C8_normalized_dims (w h : ℚ) (hw : 0 < w) (hh : 0 < h) :
    normalizeDims w h = (1080, 1920) := by
  simp only [normalizeDims]
  split_ifs with h1 h2
  · rfl
  · rfl
  · -- the clip is at most as wide as 9:16, so scaling to width 1080 gives
    -- height at least 1920; with the crop branch excluded it is exactly 1920
    have hratio : w / h ≤ 1080 / 1920 := not_lt.mp h1
    have hcross : w * 1920 ≤ 1080 * h :=
      (div_le_div_iff hh (by norm_num : (0 : ℚ) < 1920)).mp hratio
    have hge : 1920 ≤ h * (1080 / w) := by
      rw [← mul_div_assoc]
      rw [le_div_iff hw]
      linarith
    have heq : h * (1080 / w) = 1920 := le_antisymm (not_lt.mp h2) hge
    rw [heq]

/-- Concrete instance of C8: a clip already at 1080×1920 keeps its
dimensions. -/
theorem C8_normalized_dims_witness : normalizeDims 1080 1920 = (1080, 1920) :=
  C8_normalized_dims 1080 1920 (by norm_num) (by norm_num)

unseal Rat.add Rat.sub Rat.mul Rat.inv Rat.ofScientific in
/-- C9 counterexample: for the beat grid `[0, 5/2]` (2 beats spanning 2.5
seconds, average interval 1.25s, beats_per_second 0.8), the code's
`max(1, int(0.8 * 2.0)) = max(1, int(1.6))` is 1, while the spec's
`max(1, round(1.6))` is 2. -/
theorem C9_counterexample :
    beats_per_clip [0, 5/2] = 1 ∧ beats_per_clip_spec [0, 5/2] = 2 := by
  constructor <;> decide

/-- C9 (amended): the code computes
`beats_per_clip = max(1, int(beats_per_second * 2.0))` with `int` the
truncation toward zero (not `round`); for a positive beat span this equals
`max 1 ⌊2·n / span⌋` where `n` is the number of detected beats and `span`
the beat span. -/
theorem C9_beats_per_clip (bt : List ℚ)
    (hspan : 0 < bt.getLast?.getD 0 - bt.headI) (hlen : 0 < bt.length) :
    beats_per_clip bt =
      max 1 ⌊(2 * (bt.length : ℚ)) / (bt.getLast?.getD 0 - bt.headI)⌋ := by
  simp only [beats_per_clip]
  have hn : (0 : ℚ) < (bt.length : ℚ) := by exact_mod_cast hlen
  have hargeq : 1 / ((bt.getLast?.getD 0 - bt.headI) / (bt.length : ℚ)) * 2 =
      2 * (bt.length : ℚ) / (bt.getLast?.getD 0 - bt.headI) := by
    rw [one_div, inv_div]
    ring
  rw [hargeq]
  have harg : (0 : ℚ) ≤ 2 * (bt.length : ℚ) / (bt.getLast?.getD 0 - bt.headI) := by
    positivity
  rw [pyInt, if_pos harg]

unseal Rat.add Rat.sub Rat.mul Rat.inv Rat.ofScientific in
/-- Concrete instance of C9 (amended): the beat grid `[0, 5/2]` gives
`max 1 ⌊4 / (5/2)⌋ = 1`. -/
theorem C9_beats_per_clip_witness :
    beats_per_clip [0, 5/2] =
      max 1 ⌊(2 * (([(0 : ℚ), 5/2]).length : ℚ)) /
        (([(0 : ℚ), 5/2]).getLast?.getD 0 - ([(0 : ℚ), 5/2]).headI)⌋ :=
  C9_beats_per_clip [0, 5/2] (by norm_num [List.getLast?, List.headI])
    (by norm_num)

/-- Concrete instance of C10: one 3-second clip and target total duration 5. -/
theorem C10_planner_terminates_witness :
    ∃ (fuel : Nat) (segs : List Segment),
      planLoop [(3 : ℚ)] 5 usZero (fun _ => "fade") fuel 0 0 = some segs ∧
        ∀ seg ∈ segs, 0 < seg.dur :=
  C10_planner_terminates [3] 5 usZero (fun _ => "fade") (by decide)
    posSingleton3 usZero_bounds

end InstaReel
